import Mathlib

set_option maxHeartbeats 1000000
set_option maxRecDepth 2000

/-!
Verification development for the dealflow pipeline (src/pipeline.py).

The embedding is a direct translation of the source:

* Python floats are modelled as rationals (ℚ); `round(x, 3)` is modelled by
  `round3` (round to the nearest thousandth).
* Python exceptions (KeyError from dict subscripts, ValueError from `float`)
  are modelled by `Except String`; a raised exception is `Except.error`.
* Calendar dates are modelled by their day ordinal (an `Int`); the field
  `Deal.date_listed` stores the ordinal the ISO string parses to, with `none`
  standing for a string that `datetime.fromisoformat` rejects (the
  `try/except` at pipeline.py lines 130-133).  The current date
  (`datetime.now().date()`) is passed explicitly as the `today` argument.
* CPython salts `hash` on strings per process (PYTHONHASHSEED), so the hash
  used by `normalize_hit` (pipeline.py line 69) is passed explicitly as a
  function argument `hashf`; one run of the program corresponds to one fixed
  `hashf`.
* The haversine distance `km` (pipeline.py lines 30-36) computes with
  transcendental functions that have no rational values, so the scorer is
  parameterised by the distance function `kmf`; no claim below depends on the
  values `km` returns.
* The two regular expressions of the source (`([0-9.]+)(m|k)?` in
  `norm_price`, line 41, and the case-insensitive `AUD?\$?\s?([0-9,\.]+[mk]?)`
  in `normalize_hit`, line 65) are embedded as explicit leftmost-match
  scanners (`findNum`, `searchAUD`).  Every optional piece of the second
  pattern consumes a character class disjoint from everything that may follow
  it, so greedy matching without backtracking reproduces the regex semantics.
-/

/-- Canonical Deal record as built by `normalize_hit` (pipeline.py lines
68-85) and consumed by `run`/`score_deals`.  Money and coordinate fields are
nullable (`Option ℚ`); `url` is nullable because a raw hit may lack a link. -/
structure Deal where
  id : String
  title : String
  category : String
  source : String
  url : Option String
  asking_price_aud : Option ℚ
  revenue_aud : Option ℚ
  ebitda_aud : Option ℚ
  location : String
  lat : Option ℚ
  lon : Option ℚ
  ownership : String
  days_on_market : Int
  date_listed : Option Int
  notes : String
  contact : Option String
  deriving DecidableEq

/-- The `features` sub-record written by `score_deals` (pipeline.py lines
159-166). -/
structure Features where
  margin : ℚ
  price_to_ebitda : ℚ
  recency : ℚ
  freehold : ℚ
  category : ℚ
  proximity : ℚ
  deriving DecidableEq

/-- A scored deal: the Python code copies the deal dict (`d2 = dict(d)`,
line 157) and adds the keys `score` and `features`. -/
structure SDeal where
  deal : Deal
  score : ℚ
  features : Features
  deriving DecidableEq

/-- A raw search hit (pipeline.py lines 60-62 read `link`, `title`,
`snippet` with `.get`, so each may be absent). -/
structure RawHit where
  link : Option String
  title : Option String
  snippet : Option String
  deriving DecidableEq

/-- A source descriptor from sites.yaml as read by `normalize_hit`:
`source["name"]` is a direct subscript (always present for the claims
below), the rest use `.get` with defaults. -/
structure Source where
  name : String
  category : Option String
  region : Option String
  ownership : Option String
  deriving DecidableEq

/-- The scoring configuration dict: each top-level key may be absent
(`none`); `weights` is itself a dict, embedded as an association list. -/
structure ScoringConfig where
  weights : Option (List (String × ℚ))
  target_categories : Option (List String)
  hq_lat : Option ℚ
  hq_lon : Option ℚ
  max_distance_km_for_full_points : Option ℚ

/-! ### PriceParser: `norm_price` (pipeline.py lines 38-45) -/

/-- Python `str.strip()`: drop whitespace from both ends.  (Defined over the
underlying character list so that it evaluates by reduction; Lean's own
`String.trim` recurses on byte positions and does not.) -/
def pyStrip (s : String) : String :=
  String.mk ((s.data.dropWhile Char.isWhitespace).reverse.dropWhile Char.isWhitespace).reverse

/-- Python `str.lower()` (ASCII), defined over the character list for the
same reason as `pyStrip`. -/
def pyLower (s : String) : String := String.mk (s.data.map Char.toLower)

/-- Character class `[0-9.]` of the `norm_price` regex. -/
def isNumChar (c : Char) : Bool := c.isDigit || c == '.'

/-- Leftmost match of `([0-9.]+)(m|k)?` on an (already lowercased) character
list: returns the greedy digit-and-dot run (group 1) and the optional
immediately following `m`/`k` (group 2). -/
def findNum : List Char → Option (List Char × Option Char)
  | [] => none
  | c :: rest =>
    if isNumChar c then
      let run := (c :: rest).takeWhile isNumChar
      let after := (c :: rest).drop run.length
      some (run, match after with
        | c2 :: _ => if c2 == 'm' then some 'm' else if c2 == 'k' then some 'k' else none
        | [] => none)
    else findNum rest

/-- Value of a list of decimal digit characters. -/
def digitsVal (ds : List Char) : ℕ := ds.foldl (fun a c => 10 * a + (c.toNat - 48)) 0

/-- Python `float` applied to a nonempty string over the alphabet `[0-9.]`:
it succeeds iff the string has at least one digit and at most one dot
(so `float(".")` and `float("1.2.3")` raise ValueError, modelled as `none`). -/
def pyFloat (cs : List Char) : Option ℚ :=
  if cs.any Char.isDigit = true ∧ cs.count '.' ≤ 1 then
    let ip := cs.takeWhile (fun c => c != '.')
    let fp := (cs.drop ip.length).drop 1
    some ((digitsVal ip : ℚ) + (digitsVal fp : ℚ) / (10 : ℚ) ^ fp.length)
  else none

/-- `norm_price` (pipeline.py lines 38-45): empty input is falsy and yields
`None`; otherwise commas and spaces are stripped, the string is lowercased,
the first `([0-9.]+)(m|k)?` match is located (no match yields `None`), the
digit run is passed to `float` (which may raise ValueError, the
`Except.error` case), and the `m`/`k` multiplier from
`{"m": 1_000_000, "k": 1_000}.get(suffix or "", 1)` is applied. -/
def norm_price (s : String) : Except String (Option ℚ) :=
  if s.isEmpty then .ok none
  else
    let t := (s.data.filter (fun c => !(c == ',' || c == ' '))).map Char.toLower
    match findNum t with
    | none => .ok none
    | some (run, suf) =>
      match pyFloat run with
      | none => .error "ValueError"
      | some x =>
        let mul : ℚ := match suf with
          | some c => if c == 'm' then 1000000 else 1000
          | none => 1
        .ok (some (x * mul))

/-! ### The currency-marker regex of `normalize_hit` (pipeline.py line 65)

`re.search(r"AUD?\$?\s?([0-9,\.]+[mk]?)", snippet + " " + title, re.I)` -/

/-- Character class `[0-9,\.]` of the capture group. -/
def isPriceChar (c : Char) : Bool := c.isDigit || c == ',' || c == '.'

/-- Python `\s` (ASCII whitespace). -/
def isWsChar (c : Char) : Bool :=
  c == ' ' || c == '\t' || c == '\n' || c == '\r' || c == Char.ofNat 11 || c == Char.ofNat 12

/-- Consume one character if it satisfies `p` (an optional single-character
regex piece such as `D?`, `\$?` or `\s?`). -/
def skipOpt (p : Char → Bool) : List Char → List Char
  | [] => []
  | c :: r => if p c then r else c :: r

/-- Greedy `[mk]?` (case-insensitive) at the head of the remaining text. -/
def sufOf : List Char → List Char
  | c :: _ => if c == 'm' || c == 'M' || c == 'k' || c == 'K' then [c] else []
  | [] => []

/-- Match `AUD?\$?\s?([0-9,\.]+[mk]?)` (case-insensitive) anchored at the
head of the list; returns group 1 on success.  Each optional piece consumes
a character class disjoint from all the classes that may legally follow it,
so greedy consumption without backtracking is exact. -/
def matchAt : List Char → Option (List Char)
  | c1 :: c2 :: rest =>
    if (c1 == 'a' || c1 == 'A') && (c2 == 'u' || c2 == 'U') then
      let r1 := skipOpt (fun c => c == 'd' || c == 'D') rest
      let r2 := skipOpt (fun c => c == '$') r1
      let r3 := skipOpt isWsChar r2
      let run := r3.takeWhile isPriceChar
      if run.isEmpty then none
      else some (run ++ sufOf (r3.drop run.length))
    else none
  | _ => none

/-- `re.search`: try the pattern at every position, leftmost match wins. -/
def searchAUD : List Char → Option (List Char)
  | [] => none
  | c :: rest =>
    match matchAt (c :: rest) with
    | some g => some g
    | none => searchAUD rest

/-- Whether the text contains the two-letter marker `a`/`A` immediately
followed by `u`/`U` anywhere (a necessary condition for the regex above to
match at all). -/
def hasAU : List Char → Bool
  | c1 :: c2 :: rest => ((c1 == 'a' || c1 == 'A') && (c2 == 'u' || c2 == 'U')) || hasAU (c2 :: rest)
  | _ => false

/-! ### RecordNormalizer: `normalize_hit` (pipeline.py lines 59-85) -/

/-- The text the price regex is run over: `snippet + " " + title` where
`title` has already been stripped (pipeline.py lines 61-65). -/
def hitText (hit : RawHit) : List Char :=
  ((hit.snippet.getD "") ++ " " ++ pyStrip (hit.title.getD "")).data

/-- The price extraction of `normalize_hit` (pipeline.py lines 63-67):
`price = None`, then if the currency regex matches, `price =
norm_price(m.group(1))` — which may raise. -/
def parsePrice (hit : RawHit) : Except String (Option ℚ) :=
  match searchAUD (hitText hit) with
  | none => .ok none
  | some g => norm_price (String.mk g)

/-- `normalize_hit` (pipeline.py lines 59-85).  `hashf` is the per-process
string hash (CPython salts `hash` per run); `today` is
`datetime.now(timezone.utc).date()` as a day ordinal.  The `id` embeds
`f"{source['name']}-{abs(hash(link)) % 10_000_000}"`. -/
def normalize_hit (hashf : Option String → Int) (today : Int)
    (hit : RawHit) (source : Source) : Except String Deal :=
  match parsePrice hit with
  | .error e => .error e
  | .ok price =>
    .ok { id := source.name ++ "-" ++ toString ((hashf hit.link).natAbs % 10000000)
        , title := pyStrip (hit.title.getD "")
        , category := source.category.getD "Unknown"
        , source := source.name
        , url := hit.link
        , asking_price_aud := price
        , revenue_aud := none
        , ebitda_aud := none
        , location := source.region.getD "AU"
        , lat := none
        , lon := none
        , ownership := source.ownership.getD "Unknown"
        , days_on_market := 0
        , date_listed := some today
        , notes := hit.snippet.getD ""
        , contact := none }

/-! ### Deduplicator (pipeline.py lines 96-100)

The Python code builds `uniq = {}` and runs `uniq[d["url"]] = d` over the
deal list, then takes `list(uniq.values())`.  A Python dict keeps keys in
first-insertion order and overwrites values in place.  Since every stored
value `d` is stored under its own key `d["url"]`, the dict is exactly an
association list of deals keyed by their `url` field. -/

/-- One `uniq[d["url"]] = d` step: replace the value at the key in place,
or append a new entry. -/
def dictInsert (m : List Deal) (d : Deal) : List Deal :=
  match m with
  | [] => [d]
  | v :: rest => if v.url = d.url then d :: rest else v :: dictInsert rest d

/-- The dedup loop plus `list(uniq.values())`. -/
def dedupe (deals : List Deal) : List Deal := deals.foldl dictInsert []

/-- Keys of the dict are pairwise distinct. -/
def UKeys (m : List Deal) : Prop := m.Pairwise (fun a b => a.url ≠ b.url)

/-! ### FeatureScorer and Ranker: `score_deals` (pipeline.py lines 111-169) -/

/-- Python `v or 0` on a nullable number: `None` and `0` are falsy and give
`0`, any other number gives itself — numerically this is `Option.getD 0`. -/
def orZero (o : Option ℚ) : ℚ :=
  match o with
  | none => 0
  | some x => x

/-- Python `round(x, 3)`: round to the nearest thousandth.  (Python rounds
exact halves to even; this only differs from `round` at exact `0.0005` ties,
which no claim below touches.) -/
def round3 (q : ℚ) : ℚ := ((round (q * 1000) : ℤ) : ℚ) / 1000

/-- Dict subscript `w[k]` on the weights dict: KeyError when absent. -/
def keyE (w : List (String × ℚ)) (k : String) : Except String ℚ :=
  match w.find? (fun p => p.1 == k) with
  | some p => .ok p.2
  | none => .error k

/-- Per-deal body of the scoring loop (pipeline.py lines 118-167): the six
features are computed first, then the six weight subscripts
`w["ebitda_margin"]`, ..., `w["proximity_se_qld"]` are evaluated in source
order (each may raise KeyError), and the scored copy `d2` is built. -/
def scoreOne (today : Int) (kmf : ℚ → ℚ → ℚ → ℚ → ℚ)
    (w : List (String × ℚ)) (target : List String)
    (hq_lat hq_lon maxd : ℚ) (d : Deal) : Except String SDeal :=
  let rev := orZero d.revenue_aud
  let ebitda := orZero d.ebitda_aud
  let price := orZero d.asking_price_aud
  let margin : ℚ := if rev > 0 then ebitda / rev else 0
  let pte : ℚ := if ebitda > 0 then price / ebitda else 99
  let f_margin : ℚ := min (max (margin / (3/10)) 0) 1
  let f_pte : ℚ := 1 - min (pte / 5) 1
  let days : Int :=
    match d.date_listed with
    | some t => today - t
    | none => 30
  let f_recent : ℚ := max 0 (1 - (days : ℚ) / 30)
  let f_freehold : ℚ := if pyLower d.ownership == "freehold" then 1 else 3/10
  let f_cat : ℚ := if target.contains d.category then 1 else 1/2
  let f_dist : ℚ :=
    match d.lat, d.lon with
    | some la, some lo => max 0 (1 - kmf hq_lat hq_lon la lo / maxd)
    | _, _ => 1/2
  match keyE w "ebitda_margin" with
  | .error e => .error e
  | .ok w1 =>
  match keyE w "price_to_ebitda" with
  | .error e => .error e
  | .ok w2 =>
  match keyE w "recency" with
  | .error e => .error e
  | .ok w3 =>
  match keyE w "ownership_freehold" with
  | .error e => .error e
  | .ok w4 =>
  match keyE w "category_match" with
  | .error e => .error e
  | .ok w5 =>
  match keyE w "proximity_se_qld" with
  | .error e => .error e
  | .ok w6 =>
    let score := w1 * f_margin + w2 * f_pte + w3 * f_recent
      + w4 * f_freehold + w5 * f_cat + w6 * f_dist
    .ok { deal := d
        , score := round3 score
        , features := { margin := round3 f_margin
                      , price_to_ebitda := round3 f_pte
                      , recency := round3 f_recent
                      , freehold := f_freehold
                      , category := f_cat
                      , proximity := round3 f_dist } }

/-- The `for d in deals` loop: Python appends scored deals one by one and
propagates the first exception immediately. -/
def mapE (f : Deal → Except String SDeal) : List Deal → Except String (List SDeal)
  | [] => .ok []
  | d :: ds =>
    match f d with
    | .error e => .error e
    | .ok s =>
      match mapE f ds with
      | .error e => .error e
      | .ok ss => .ok (s :: ss)

/-- Stable insertion for descending order: a new element (earlier in the
input) moves past strictly greater scores only, so it stays before elements
of equal score that came later. -/
def insertDesc (d : SDeal) : List SDeal → List SDeal
  | [] => [d]
  | x :: xs => if x.score > d.score then x :: insertDesc d xs else d :: x :: xs

/-- `out.sort(key=lambda x: x["score"], reverse=True)` (pipeline.py line
168).  Python's sort is stable and `reverse=True` does not reorder
equal-key elements; a stable descending sort is unique as a function of the
input list, and `sortDesc` is one (sortedness and stability are proved
below), so it is extensionally the source's sort. -/
def sortDesc : List SDeal → List SDeal
  | [] => []
  | d :: ds => insertDesc d (sortDesc ds)

/-- `score_deals` (pipeline.py lines 111-169).  The five top-level config
subscripts (lines 112-115) are evaluated before the loop, in source order;
each may raise KeyError.  `target` is `set(cfg["target_categories"])`,
embedded as the list (membership is all the set is used for). -/
def score_deals (today : Int) (kmf : ℚ → ℚ → ℚ → ℚ → ℚ)
    (deals : List Deal) (cfg : ScoringConfig) : Except String (List SDeal) :=
  match cfg.weights with
  | none => .error "weights"
  | some w =>
  match cfg.target_categories with
  | none => .error "target_categories"
  | some target =>
  match cfg.hq_lat with
  | none => .error "hq_lat"
  | some hq_lat =>
  match cfg.hq_lon with
  | none => .error "hq_lon"
  | some hq_lon =>
  match cfg.max_distance_km_for_full_points with
  | none => .error "max_distance_km_for_full_points"
  | some maxd =>
  match mapE (scoreOne today kmf w target hq_lat hq_lon maxd) deals with
  | .error e => .error e
  | .ok out => .ok (sortDesc out)

/-- Whether an `Except` value is an error (a raised, uncaught exception). -/
def isErr : Except String α → Bool
  | .error _ => true
  | .ok _ => false

/-! ### Concrete instances used by witnesses and counterexamples -/

/-- A placeholder distance function for concrete evaluations (no claim
depends on the values the haversine returns). -/
def kmf0 : ℚ → ℚ → ℚ → ℚ → ℚ := fun _ _ _ _ => 0

/-- A process hash function (one possible run). -/
def hf0 : Option String → Int := fun _ => 0

/-- A process hash function of a different run (different hash salt). -/
def hf1 : Option String → Int := fun _ => 1

/-- A weights dict with all six keys; only `ownership_freehold` is nonzero,
so scores are easy to read off. -/
def cfgW : List (String × ℚ) :=
  [("ebitda_margin", 0), ("price_to_ebitda", 0), ("recency", 0),
   ("ownership_freehold", 1), ("category_match", 0), ("proximity_se_qld", 0)]

/-- A scoring config with all keys present. -/
def cfgOK : ScoringConfig :=
  { weights := some cfgW
  , target_categories := some []
  , hq_lat := some 0
  , hq_lon := some 0
  , max_distance_km_for_full_points := some 50 }

/-- A leasehold deal listed today (day ordinal 0), with every nullable field
absent. -/
def baseDeal : Deal :=
  { id := "x", title := "t", category := "Cafe", source := "s", url := some "a"
  , asking_price_aud := none, revenue_aud := none, ebitda_aud := none
  , location := "AU", lat := none, lon := none, ownership := "Leasehold"
  , days_on_market := 0, date_listed := some 0, notes := "", contact := none }

/-- A freehold deal at a different url. -/
def dealB : Deal := { baseDeal with ownership := "Freehold", url := some "b" }

/-- A deal whose listed date is one day in the future of `today = 0`. -/
def dFuture : Deal := { baseDeal with date_listed := some 1 }

/-- A deal with an unknown asking price and a strictly positive EBITDA. -/
def dEbitda : Deal := { baseDeal with ebitda_aud := some 100 }

/-- The scored copy of `baseDeal` under `cfgOK` at `today = 0`:
rev = ebitda = price = 0, so margin 0 and pte = 99 (feature 0); listed today
so recency 1; leasehold 3/10; category not targeted 1/2; no coordinates
1/2.  Score = 1 * 3/10. -/
def sdBase : SDeal :=
  { deal := baseDeal, score := 3/10
  , features := { margin := 0, price_to_ebitda := 0, recency := 1
                , freehold := 3/10, category := 1/2, proximity := 1/2 } }

/-- The scored copy of `dEbitda` under `cfgOK` at `today = 0`: the missing
price is treated as 0, so pte = 0 and the pte feature is 1. -/
def sdEbitda : SDeal :=
  { deal := dEbitda, score := 3/10
  , features := { margin := 0, price_to_ebitda := 1, recency := 1
                , freehold := 3/10, category := 1/2, proximity := 1/2 } }

/-- A source descriptor with only a name. -/
def srcBiz : Source := { name := "biz", category := none, region := none, ownership := none }

/-- A raw hit whose snippet carries a bare dollar amount with no AU marker. -/
def hitBare : RawHit := { link := some "u", title := some "", snippet := some "$1.2m" }

/-- A raw hit whose snippet carries an AUD-marked amount. -/
def hitAUD : RawHit := { link := some "u", title := some "", snippet := some "AUD 1.2m" }

/-- A raw hit with empty text. -/
def hitEmpty : RawHit := { link := some "u", title := some "", snippet := some "" }

/-- A raw hit whose snippet carries a bare "450k" with no AU marker. -/
def hit450 : RawHit := { link := some "u", title := some "", snippet := some "450k" }

/-- The config `cfgOK` with the weights dict present but empty (all six
weight keys missing). -/
def cfgEmptyW : ScoringConfig := { cfgOK with weights := some [] }

/-- The config `cfgOK` with the top-level key `hq_lat` missing. -/
def cfgNoLat : ScoringConfig := { cfgOK with hq_lat := none }

/-- The Deal `normalize_hit hf0 0 hitEmpty srcBiz` produces. -/
def dealNormEmpty : Deal :=
  { id := "biz-0", title := "", category := "Unknown", source := "biz", url := some "u"
  , asking_price_aud := none, revenue_aud := none, ebitda_aud := none
  , location := "AU", lat := none, lon := none, ownership := "Unknown"
  , days_on_market := 0, date_listed := some 0, notes := "", contact := none }

/-- The Deal `normalize_hit hf0 5 hitBare srcBiz` produces (same url as
`dealNormEmpty`, different date and notes). -/
def dealNormBare : Deal :=
  { dealNormEmpty with date_listed := some 5, notes := "$1.2m" }

/-! ### Lemmas about the deduplicator -/

theorem mem_dictInsert {b d : Deal} : ∀ {m : List Deal}, b ∈ dictInsert m d → b = d ∨ b ∈ m := by
  intro m
  induction m with
  | nil => intro h; simp [dictInsert] at h; exact Or.inl h
  | cons v rest ih =>
    intro h
    by_cases hv : v.url = d.url
    · simp only [dictInsert, if_pos hv, List.mem_cons] at h
      rcases h with h | h
      · exact Or.inl h
      · exact Or.inr (List.mem_cons_of_mem _ h)
    · simp only [dictInsert, if_neg hv, List.mem_cons] at h
      rcases h with h | h
      · exact Or.inr (h ▸ List.mem_cons_self _ _)
      · rcases ih h with h | h
        · exact Or.inl h
        · exact Or.inr (List.mem_cons_of_mem _ h)

theorem UKeys_dictInsert {d : Deal} : ∀ {m : List Deal}, UKeys m → UKeys (dictInsert m d) := by
  intro m
  induction m with
  | nil => intro _; simp [dictInsert, UKeys]
  | cons v rest ih =>
    intro hU
    rw [UKeys, List.pairwise_cons] at hU
    by_cases hv : v.url = d.url
    · rw [dictInsert, if_pos hv, UKeys, List.pairwise_cons]
      exact ⟨fun b hb => hv ▸ hU.1 b hb, hU.2⟩
    · rw [dictInsert, if_neg hv, UKeys, List.pairwise_cons]
      refine ⟨fun b hb => ?_, ih hU.2⟩
      rcases mem_dictInsert hb with h | h
      · exact h ▸ hv
      · exact hU.1 b h

theorem filter_dictInsert_self {u : Option String} :
    ∀ {m : List Deal} {d : Deal}, UKeys m → d.url = u →
      (dictInsert m d).filter (fun x => x.url == u) = [d] := by
  intro m
  induction m with
  | nil =>
    intro d _ hd
    simp [dictInsert, List.filter, hd]
  | cons v rest ih =>
    intro d hU hd
    rw [UKeys, List.pairwise_cons] at hU
    by_cases hv : v.url = d.url
    · rw [dictInsert, if_pos hv, List.filter_cons]
      have : (d.url == u) = true := by simp [hd]
      rw [if_pos this]
      have hnil : rest.filter (fun x => x.url == u) = [] := by
        rw [List.filter_eq_nil_iff]
        intro b hb
        have := hU.1 b hb
        simp only [beq_iff_eq]
        rw [← hd, ← hv]
        exact fun hc => this hc.symm
      rw [hnil]
    · rw [dictInsert, if_neg hv, List.filter_cons]
      have : ¬((v.url == u) = true) := by
        simp only [beq_iff_eq]
        rw [← hd]
        exact hv
      rw [if_neg this]
      exact ih hU.2 hd

theorem filter_dictInsert_ne {u : Option String} :
    ∀ {m : List Deal} {d : Deal}, d.url ≠ u →
      (dictInsert m d).filter (fun x => x.url == u) = m.filter (fun x => x.url == u) := by
  intro m
  induction m with
  | nil =>
    intro d hd
    rw [show dictInsert [] d = [d] from rfl, List.filter_cons,
      if_neg (by simp [hd]), List.filter_nil]
  | cons v rest ih =>
    intro d hd
    by_cases hv : v.url = d.url
    · rw [dictInsert, if_pos hv, List.filter_cons, List.filter_cons]
      have h1 : ¬((d.url == u) = true) := by simp [hd]
      have h2 : ¬((v.url == u) = true) := by
        simp only [beq_iff_eq]
        rw [hv]
        exact hd
      rw [if_neg h1, if_neg h2]
    · rw [dictInsert, if_neg hv, List.filter_cons, List.filter_cons]
      rw [ih hd]

theorem getLast?_cons_eq {α : Type} (a : α) (l : List α) :
    (a :: l).getLast? = match l.getLast? with
      | none => some a
      | some x => some x := by
  induction l generalizing a with
  | nil => rfl
  | cons b t ih =>
    rw [List.getLast?_cons_cons, ih b]
    cases h : t.getLast? <;> simp [ih b, h]

theorem filter_foldl_dictInsert (u : Option String) :
    ∀ (ds m : List Deal), UKeys m →
      ((ds.foldl dictInsert m).filter (fun x => x.url == u)) =
        (match (ds.filter (fun x => x.url == u)).getLast? with
          | some d => [d]
          | none => m.filter (fun x => x.url == u)) := by
  intro ds
  induction ds with
  | nil => intro m _; rfl
  | cons d rest ih =>
    intro m hU
    rw [List.foldl_cons, ih (dictInsert m d) (UKeys_dictInsert hU), List.filter_cons]
    by_cases hd : d.url = u
    · rw [if_pos (by simp [hd])]
      rw [getLast?_cons_eq]
      cases h : (rest.filter (fun x => x.url == u)).getLast? with
      | none => simp only [h]; exact filter_dictInsert_self hU hd
      | some x => simp only [h]
    · rw [if_neg (by simp [hd])]
      cases h : (rest.filter (fun x => x.url == u)).getLast? with
      | none => simp only [h]; exact filter_dictInsert_ne hd
      | some x => simp only [h]

theorem dictInsert_append {d : Deal} :
    ∀ {m : List Deal}, (∀ v ∈ m, v.url ≠ d.url) → dictInsert m d = m ++ [d] := by
  intro m
  induction m with
  | nil => intro _; rfl
  | cons v rest ih =>
    intro h
    rw [dictInsert, if_neg (h v (List.mem_cons_self _ _)),
      ih (fun b hb => h b (List.mem_cons_of_mem _ hb)), List.cons_append]

theorem foldl_dictInsert_of_ukeys :
    ∀ (l m : List Deal), UKeys (m ++ l) → l.foldl dictInsert m = m ++ l := by
  intro l
  induction l with
  | nil => intro m _; simp
  | cons d rest ih =>
    intro m hU
    have hmem : ∀ v ∈ m, v.url ≠ d.url := by
      intro v hv
      have := (List.pairwise_append.mp hU).2.2 v hv d (List.mem_cons_self _ _)
      exact this
    rw [List.foldl_cons, dictInsert_append hmem, ih (m ++ [d]) ?_, List.append_assoc]
    · simp
    · rw [List.append_assoc]
      simpa using hU

theorem UKeys_foldl : ∀ (ds m : List Deal), UKeys m → UKeys (ds.foldl dictInsert m) := by
  intro ds
  induction ds with
  | nil => intro m h; exact h
  | cons d rest ih => intro m h; exact ih _ (UKeys_dictInsert h)

theorem UKeys_dedupe (ds : List Deal) : UKeys (dedupe ds) :=
  UKeys_foldl ds [] (by simp [UKeys])

/-- Claim C6: deduplication is last-wins — for every deal sequence and every
url value, the deduped output contains exactly one deal with that url,
namely the last one in input order (its filtered occurrence list is exactly
the last input occurrence); and for two deals A then B sharing a url,
dedupe [A, B] = [B]. -/
theorem c6_dedupe_last_wins (ds : List Deal) (u : Option String) (A B : Deal)
    (hAB : A.url = B.url) :
    ((dedupe ds).filter (fun x => x.url == u) =
      ((ds.filter (fun x => x.url == u)).getLast?).toList)
    ∧ dedupe [A, B] = [B] := by
  constructor
  · rw [dedupe, filter_foldl_dictInsert u ds [] (by simp [UKeys])]
    cases h : (ds.filter (fun x => x.url == u)).getLast? <;> simp [h]
  · simp [dedupe, dictInsert, hAB]

/-- Witness for C6 at concrete input: two deals sharing url "a", the second
with a different title; dedupe keeps exactly the second. -/
theorem c6_dedupe_last_wins_witness :
    ((dedupe [baseDeal, { baseDeal with title := "B" }]).filter
        (fun x => x.url == some "a") =
      (([baseDeal, { baseDeal with title := "B" }].filter
          (fun x => x.url == some "a")).getLast?).toList)
    ∧ dedupe [baseDeal, { baseDeal with title := "B" }] = [{ baseDeal with title := "B" }] :=
  c6_dedupe_last_wins [baseDeal, { baseDeal with title := "B" }] (some "a")
    baseDeal { baseDeal with title := "B" } rfl

/-- Claim C7: deduplication is idempotent — dedupe (dedupe D) = dedupe D.
This holds even as an equality of lists (stronger than equality as sets
keyed by url). -/
theorem c7_dedupe_idempotent (ds : List Deal) : dedupe (dedupe ds) = dedupe ds := by
  rw [dedupe, foldl_dictInsert_of_ukeys (dedupe ds) [] (by simpa using UKeys_dedupe ds)]
  simp

/-! ### Lemmas about the ranking sort -/

theorem insertDesc_perm (d : SDeal) : ∀ l : List SDeal, (insertDesc d l).Perm (d :: l) := by
  intro l
  induction l with
  | nil => exact List.Perm.refl _
  | cons x xs ih =>
    rw [insertDesc]
    by_cases hx : x.score > d.score
    · rw [if_pos hx]
      exact (ih.cons x).trans (List.Perm.swap d x xs)
    · rw [if_neg hx]

theorem sortDesc_perm : ∀ l : List SDeal, (sortDesc l).Perm l := by
  intro l
  induction l with
  | nil => exact List.Perm.refl _
  | cons d ds ih => exact (insertDesc_perm d (sortDesc ds)).trans (ih.cons d)

theorem mem_insertDesc {b d : SDeal} : ∀ {l : List SDeal}, b ∈ insertDesc d l → b = d ∨ b ∈ l := by
  intro l
  induction l with
  | nil => intro h; simp [insertDesc] at h; exact Or.inl h
  | cons x xs ih =>
    intro h
    rw [insertDesc] at h
    by_cases hx : x.score > d.score
    · rw [if_pos hx, List.mem_cons] at h
      rcases h with h | h
      · exact Or.inr (h ▸ List.mem_cons_self _ _)
      · rcases ih h with h | h
        · exact Or.inl h
        · exact Or.inr (List.mem_cons_of_mem _ h)
    · rw [if_neg hx, List.mem_cons] at h
      rcases h with h | h
      · exact Or.inl h
      · exact Or.inr h

theorem insertDesc_pairwise {d : SDeal} :
    ∀ {l : List SDeal}, l.Pairwise (fun a b => b.score ≤ a.score) →
      (insertDesc d l).Pairwise (fun a b => b.score ≤ a.score) := by
  intro l
  induction l with
  | nil => intro _; simp [insertDesc]
  | cons x xs ih =>
    intro h
    rw [List.pairwise_cons] at h
    rw [insertDesc]
    by_cases hx : x.score > d.score
    · rw [if_pos hx, List.pairwise_cons]
      refine ⟨fun b hb => ?_, ih h.2⟩
      rcases mem_insertDesc hb with hb | hb
      · exact hb ▸ le_of_lt hx
      · exact h.1 b hb
    · rw [if_neg hx, List.pairwise_cons]
      refine ⟨fun b hb => ?_, List.pairwise_cons.mpr h⟩
      rw [List.mem_cons] at hb
      rcases hb with hb | hb
      · exact hb ▸ le_of_not_lt hx
      · exact le_trans (h.1 b hb) (le_of_not_lt hx)

theorem sortDesc_pairwise : ∀ l : List SDeal,
    (sortDesc l).Pairwise (fun a b => b.score ≤ a.score) := by
  intro l
  induction l with
  | nil => simp [sortDesc]
  | cons d ds ih => exact insertDesc_pairwise ih

theorem insertDesc_filter (d : SDeal) (s : ℚ) :
    ∀ l : List SDeal, (insertDesc d l).filter (fun x => x.score == s) =
      if d.score = s then d :: l.filter (fun x => x.score == s)
      else l.filter (fun x => x.score == s) := by
  intro l
  induction l with
  | nil =>
    by_cases hd : d.score = s <;> simp [insertDesc, List.filter_cons, hd]
  | cons x xs ih =>
    rw [insertDesc]
    by_cases hx : x.score > d.score
    · rw [if_pos hx]
      by_cases hd : d.score = s
      · have hxs : ¬x.score = s := hd ▸ ne_of_gt hx
        rw [if_pos hd] at ih ⊢
        simp only [List.filter_cons, beq_iff_eq]
        rw [if_neg hxs, if_neg hxs, ih]
      · rw [if_neg hd] at ih ⊢
        simp only [List.filter_cons, ih]
    · rw [if_neg hx]
      by_cases hd : d.score = s
      · rw [if_pos hd]
        simp [List.filter_cons, hd]
      · rw [if_neg hd]
        simp [List.filter_cons, hd]

theorem sortDesc_filter (s : ℚ) : ∀ l : List SDeal,
    (sortDesc l).filter (fun x => x.score == s) = l.filter (fun x => x.score == s) := by
  intro l
  induction l with
  | nil => rfl
  | cons d ds ih =>
    rw [sortDesc, insertDesc_filter, List.filter_cons]
    by_cases hd : d.score = s
    · rw [if_pos hd, if_pos (by simp [hd]), ih]
    · rw [if_neg hd, if_neg (by simp [hd]), ih]

/-- Claim C8: the ranking step (the sort at pipeline.py line 168, embedded
as sortDesc) sorts scored deals by score descending and is stable: the
output is a permutation of the input that is pairwise descending in score,
and for every score value the sublist of deals having that score is exactly
the same (same deals, same relative order) as in the pre-sort sequence.
Being a pure function of its input, it is deterministic across runs. -/
theorem c8_rank_sorted_stable (l : List SDeal) (s : ℚ) :
    (sortDesc l).Perm l
    ∧ (sortDesc l).Pairwise (fun a b => b.score ≤ a.score)
    ∧ (sortDesc l).filter (fun x => x.score == s) = l.filter (fun x => x.score == s) :=
  ⟨sortDesc_perm l, sortDesc_pairwise l, sortDesc_filter s l⟩


/-! ### Lemmas about the currency regex and the record normalizer -/

theorem matchAt_eq_none_of_head {c1 c2 : Char} (rest : List Char)
    (h : ((c1 == 'a' || c1 == 'A') && (c2 == 'u' || c2 == 'U')) = false) :
    matchAt (c1 :: c2 :: rest) = none := by
  rw [matchAt, if_neg]
  simp [h]

theorem searchAUD_eq_none : ∀ cs : List Char, hasAU cs = false → searchAUD cs = none := by
  intro cs
  induction cs with
  | nil => intro _; rfl
  | cons c rest ih =>
    intro h
    cases rest with
    | nil => rfl
    | cons c2 rest2 =>
      rw [hasAU, Bool.or_eq_false_iff] at h
      simp only [searchAUD, matchAt_eq_none_of_head rest2 h.1]
      exact ih h.2

theorem asking_price_none_of_no_au (hashf : Option String → Int) (today : Int)
    (hit : RawHit) (src : Source) (h : hasAU (hitText hit) = false) :
    (normalize_hit hashf today hit src).toOption.map (fun d => d.asking_price_aud)
      = some none := by
  simp [normalize_hit, parsePrice, searchAUD_eq_none _ h, Except.toOption]

/-! ### Inversion lemmas about the scorer -/

theorem scoreOne_ok_fields (today : Int) (kmf : ℚ → ℚ → ℚ → ℚ → ℚ)
    (w : List (String × ℚ)) (tg : List String) (la lo md : ℚ) (d : Deal) (s : SDeal)
    (h : scoreOne today kmf w tg la lo md d = .ok s) :
    s.deal = d
    ∧ s.features.price_to_ebitda =
        round3 (1 - min ((if orZero d.ebitda_aud > 0 then
          orZero d.asking_price_aud / orZero d.ebitda_aud else 99) / 5) 1) := by
  simp only [scoreOne] at h
  split at h
  · exact Except.noConfusion h
  · split at h
    · exact Except.noConfusion h
    · split at h
      · exact Except.noConfusion h
      · split at h
        · exact Except.noConfusion h
        · split at h
          · exact Except.noConfusion h
          · split at h
            · exact Except.noConfusion h
            · rw [Except.ok.injEq] at h
              rw [← h]
              exact ⟨rfl, rfl⟩

theorem mapE_ok_deals (today : Int) (kmf : ℚ → ℚ → ℚ → ℚ → ℚ)
    (w : List (String × ℚ)) (tg : List String) (la lo md : ℚ) :
    ∀ (ds : List Deal) (l : List SDeal),
      mapE (scoreOne today kmf w tg la lo md) ds = .ok l →
      l.map (fun sd => sd.deal) = ds := by
  intro ds
  induction ds with
  | nil =>
    intro l h
    simp only [mapE, Except.ok.injEq] at h
    rw [← h]
    rfl
  | cons d rest ih =>
    intro l h
    simp only [mapE] at h
    split at h
    · exact Except.noConfusion h
    · rename_i s hs
      split at h
      · exact Except.noConfusion h
      · rename_i ss hss
        rw [Except.ok.injEq] at h
        rw [← h, List.map_cons, (scoreOne_ok_fields today kmf w tg la lo md d s hs).1,
          ih ss hss]

theorem isErr_eq_true_iff {α : Type} (x : Except String α) :
    isErr x = true ↔ ∃ e, x = .error e := by
  cases x with
  | error e => simp [isErr]
  | ok a => simp [isErr]

theorem scoreOne_missing_key (today : Int) (kmf : ℚ → ℚ → ℚ → ℚ → ℚ)
    (w : List (String × ℚ)) (tg : List String) (la lo md : ℚ) (d : Deal)
    (h : w.find? (fun p => p.1 == "ebitda_margin") = none
      ∨ w.find? (fun p => p.1 == "price_to_ebitda") = none
      ∨ w.find? (fun p => p.1 == "recency") = none
      ∨ w.find? (fun p => p.1 == "ownership_freehold") = none
      ∨ w.find? (fun p => p.1 == "category_match") = none
      ∨ w.find? (fun p => p.1 == "proximity_se_qld") = none) :
    isErr (scoreOne today kmf w tg la lo md d) = true := by
  rcases h with h | h | h | h | h | h
  · simp [scoreOne, keyE, h, isErr]
  · cases h1 : w.find? (fun p => p.1 == "ebitda_margin") <;>
      simp [scoreOne, keyE, h, h1, isErr]
  · cases h1 : w.find? (fun p => p.1 == "ebitda_margin") <;>
      cases h2 : w.find? (fun p => p.1 == "price_to_ebitda") <;>
      simp [scoreOne, keyE, h, h1, h2, isErr]
  · cases h1 : w.find? (fun p => p.1 == "ebitda_margin") <;>
      cases h2 : w.find? (fun p => p.1 == "price_to_ebitda") <;>
      cases h3 : w.find? (fun p => p.1 == "recency") <;>
      simp [scoreOne, keyE, h, h1, h2, h3, isErr]
  · cases h1 : w.find? (fun p => p.1 == "ebitda_margin") <;>
      cases h2 : w.find? (fun p => p.1 == "price_to_ebitda") <;>
      cases h3 : w.find? (fun p => p.1 == "recency") <;>
      cases h4 : w.find? (fun p => p.1 == "ownership_freehold") <;>
      simp [scoreOne, keyE, h, h1, h2, h3, h4, isErr]
  · cases h1 : w.find? (fun p => p.1 == "ebitda_margin") <;>
      cases h2 : w.find? (fun p => p.1 == "price_to_ebitda") <;>
      cases h3 : w.find? (fun p => p.1 == "recency") <;>
      cases h4 : w.find? (fun p => p.1 == "ownership_freehold") <;>
      cases h5 : w.find? (fun p => p.1 == "category_match") <;>
      simp [scoreOne, keyE, h, h1, h2, h3, h4, h5, isErr]

/-! ### Claims about the scorer and normalizer (general statements) -/

/-- Claim C2, amended: for every complete ScoringConfig, score_deals returns
exactly the input deals, each augmented with score and features (the
underlying deals of the augmented list are the input in input order), but
NOT in input order: the output is the stable descending sort by score of
the augmented sequence — a permutation of it — because the sort at
pipeline.py line 168 runs inside score_deals. -/
theorem c2_scorer_sorts (today : Int) (kmf : ℚ → ℚ → ℚ → ℚ → ℚ)
    (deals : List Deal) (cfg : ScoringConfig)
    (w : List (String × ℚ)) (target : List String) (la lo md : ℚ)
    (augs out : List SDeal)
    (hw : cfg.weights = some w) (ht : cfg.target_categories = some target)
    (hla : cfg.hq_lat = some la) (hlo : cfg.hq_lon = some lo)
    (hmd : cfg.max_distance_km_for_full_points = some md)
    (haug : mapE (scoreOne today kmf w target la lo md) deals = .ok augs)
    (hout : score_deals today kmf deals cfg = .ok out) :
    out = sortDesc augs
    ∧ out.Perm augs
    ∧ out.Pairwise (fun a b => b.score ≤ a.score)
    ∧ augs.map (fun sd => sd.deal) = deals := by
  have h1 : out = sortDesc augs := by
    simp only [score_deals, hw, ht, hla, hlo, hmd, haug, Except.ok.injEq] at hout
    exact hout.symm
  exact ⟨h1, h1 ▸ sortDesc_perm augs, h1 ▸ sortDesc_pairwise augs,
    mapE_ok_deals today kmf w target la lo md deals augs haug⟩

/-- Claim C5, amended: the id of a normalized Deal is determined by the
source descriptor's name and the process string hash of the hit's URL: for
one fixed per-process hash function (CPython salts str hashes per process),
two normalizations of hits with the same link under sources with the same
name yield the same id, whatever the other fields or the current date.
Across separate runs the hash salt differs, so ids need not agree (see the
counterexample). -/
theorem c5_id_fixed_hash (hashf : Option String → Int) (t1 t2 : Int)
    (h1 h2 : RawHit) (s1 s2 : Source) (d1 d2 : Deal)
    (hl : h1.link = h2.link) (hn : s1.name = s2.name)
    (e1 : normalize_hit hashf t1 h1 s1 = .ok d1)
    (e2 : normalize_hit hashf t2 h2 s2 = .ok d2) :
    d1.id = d2.id := by
  simp only [normalize_hit] at e1 e2
  split at e1
  · exact Except.noConfusion e1
  · split at e2
    · exact Except.noConfusion e2
    · rw [Except.ok.injEq] at e1 e2
      rw [← e1, ← e2]
      simp [hl, hn]

/-- Claim C9, amended: a ScoringConfig missing one of the five top-level
keys (weights, target_categories, hq_lat, hq_lon,
max_distance_km_for_full_points) makes score_deals raise KeyError before
any deal is processed; a weights dict missing one of the six weight keys
makes score_deals raise as soon as the first deal is scored, so any run
with at least one deal fails with no scored output — but with an empty
deal sequence a missing weight key goes undetected (see the
counterexample). -/
theorem c9_config_keyerror (today : Int) (kmf : ℚ → ℚ → ℚ → ℚ → ℚ)
    (deals : List Deal) (cfg : ScoringConfig) :
    ((cfg.weights = none ∨ cfg.target_categories = none ∨ cfg.hq_lat = none
        ∨ cfg.hq_lon = none ∨ cfg.max_distance_km_for_full_points = none) →
      isErr (score_deals today kmf deals cfg) = true)
    ∧ (∀ (w : List (String × ℚ)) (d : Deal) (rest : List Deal),
        cfg.weights = some w → deals = d :: rest →
        (w.find? (fun p => p.1 == "ebitda_margin") = none
          ∨ w.find? (fun p => p.1 == "price_to_ebitda") = none
          ∨ w.find? (fun p => p.1 == "recency") = none
          ∨ w.find? (fun p => p.1 == "ownership_freehold") = none
          ∨ w.find? (fun p => p.1 == "category_match") = none
          ∨ w.find? (fun p => p.1 == "proximity_se_qld") = none) →
        isErr (score_deals today kmf deals cfg) = true) := by
  constructor
  · intro h
    rcases h with h | h | h | h | h
    · simp [score_deals, h, isErr]
    · cases hw : cfg.weights <;> simp [score_deals, hw, h, isErr]
    · cases hw : cfg.weights <;> cases ht : cfg.target_categories <;>
        simp [score_deals, hw, ht, h, isErr]
    · cases hw : cfg.weights <;> cases ht : cfg.target_categories <;>
        cases hla : cfg.hq_lat <;> simp [score_deals, hw, ht, hla, h, isErr]
    · cases hw : cfg.weights <;> cases ht : cfg.target_categories <;>
        cases hla : cfg.hq_lat <;> cases hlo : cfg.hq_lon <;>
        simp [score_deals, hw, ht, hla, hlo, h, isErr]
  · intro w d rest hw hdeals hmiss
    subst hdeals
    cases ht : cfg.target_categories with
    | none => simp [score_deals, hw, ht, isErr]
    | some tg =>
    cases hla : cfg.hq_lat with
    | none => simp [score_deals, hw, ht, hla, isErr]
    | some la =>
    cases hlo : cfg.hq_lon with
    | none => simp [score_deals, hw, ht, hla, hlo, isErr]
    | some lo =>
    cases hmd : cfg.max_distance_km_for_full_points with
    | none => simp [score_deals, hw, ht, hla, hlo, hmd, isErr]
    | some md =>
      have hs := scoreOne_missing_key today kmf w tg la lo md d hmiss
      rw [isErr_eq_true_iff] at hs
      obtain ⟨e, he⟩ := hs
      simp [score_deals, hw, ht, hla, hlo, hmd, mapE, he, isErr]

theorem round3_one : round3 (1:ℚ) = 1 := by
  rw [round3, one_mul, show ((1000:ℚ)) = ((1000:ℤ):ℚ) by norm_cast, round_intCast]
  norm_num

/-- Claim C10: a deal with a null asking_price but a strictly positive
ebitda gets raw price-to-ebitda ratio 0 (the missing price is the falsy
`None`, turned into 0 by `or 0`), so its price_to_ebitda feature is exactly
1 — the best possible price credit. -/
theorem c10_missing_price_best_pte (today : Int) (kmf : ℚ → ℚ → ℚ → ℚ → ℚ)
    (cfg : ScoringConfig) (d : Deal) (e : ℚ) (out : List SDeal)
    (hp : d.asking_price_aud = none) (he : d.ebitda_aud = some e) (hpos : 0 < e)
    (h : score_deals today kmf [d] cfg = .ok out) :
    out.map (fun sd => sd.features.price_to_ebitda) = [1] := by
  rcases hw : cfg.weights with _ | w
  · simp [score_deals, hw] at h
  rcases ht : cfg.target_categories with _ | tg
  · simp [score_deals, hw, ht] at h
  rcases hla : cfg.hq_lat with _ | la
  · simp [score_deals, hw, ht, hla] at h
  rcases hlo : cfg.hq_lon with _ | lo
  · simp [score_deals, hw, ht, hla, hlo] at h
  rcases hmd : cfg.max_distance_km_for_full_points with _ | md
  · simp [score_deals, hw, ht, hla, hlo, hmd] at h
  cases hs : scoreOne today kmf w tg la lo md d with
  | error e2 => simp [score_deals, hw, ht, hla, hlo, hmd, mapE, hs] at h
  | ok s =>
    have hout : out = [s] := by
      simp only [score_deals, hw, ht, hla, hlo, hmd, mapE, hs, sortDesc, insertDesc,
        Except.ok.injEq] at h
      exact h.symm
    have hpte := (scoreOne_ok_fields today kmf w tg la lo md d s hs).2
    rw [hp, he] at hpte
    have horz : orZero (some e) = e := rfl
    have horn : orZero (none : Option ℚ) = 0 := rfl
    rw [horz, horn, if_pos hpos, zero_div, zero_div,
      min_eq_left (by norm_num : (0:ℚ) ≤ 1), sub_zero, round3_one] at hpte
    rw [hout, List.map_cons, List.map_nil, hpte]

/-! ### Concrete evaluations, counterexamples and witnesses

The five arithmetic operations on ℚ are `@[irreducible]` in the library;
inside this section they are made semireducible again so that closed
evaluations of the embedding go through by `decide`/`rfl`. -/

section ConcreteEvaluations

attribute [local semireducible] Rat.add Rat.mul Rat.inv Rat.sub Rat.ofScientific

/-- Claim C1 (refuting evaluation): for a deal whose date_listed is one day
in the future of the current date (days = −1), score_deals reports a
recency feature of 1.033 > 1 — the recency feature has no upper clamp
(pipeline.py line 134 is max(0, 1 − days/30)), so feature values do not all
lie in [0,1] even though every one of the six weight keys is present. -/
theorem c1_recency_exceeds_one :
    ((score_deals 0 kmf0 [dFuture] cfgOK).toOption.map
        (fun l => l.map (fun sd => sd.features.recency))) = some [1033/1000]
    ∧ (1 : ℚ) < 1033/1000 := by
  constructor
  · decide
  · norm_num

/-- Claim C3 (refuting evaluation): norm_price realizes the three
documented scenarios, but on the input "." the regex `[0-9.]+` matches the
lone dot and `float(".")` raises ValueError — so norm_price does not return
a value or null for every input string; it can raise. -/
theorem c3_price_parser_raises_on_dot :
    norm_price "$1.2m" = .ok (some 1200000)
    ∧ norm_price "450k" = .ok (some 450000)
    ∧ norm_price "no number here" = .ok none
    ∧ norm_price "." = .error "ValueError" := by
  refine ⟨?_, ?_, ?_, ?_⟩ <;> rfl

/-- Claim C2 (counterexample): on the input sequence [baseDeal, dealB] —
urls "a" then "b", scores 0.3 then 1.0 — score_deals returns the deals in
url order ["b", "a"], not the input order ["a", "b"]: the scorer re-sorts,
so its output is not the input sequence order. -/
theorem c2_order_not_preserved_cex :
    ((score_deals 0 kmf0 [baseDeal, dealB] cfgOK).toOption.map
        (fun l => l.map (fun sd => sd.deal.url))) = some [some "b", some "a"]
    ∧ [baseDeal, dealB].map (fun d => d.url) = [some "a", some "b"] := by
  constructor
  · decide
  · decide

/-- Witness for C2 (amended) at a concrete input. -/
theorem c2_scorer_sorts_witness :
    [sdBase] = sortDesc [sdBase]
    ∧ ([sdBase] : List SDeal).Perm [sdBase]
    ∧ ([sdBase] : List SDeal).Pairwise (fun a b => b.score ≤ a.score)
    ∧ [sdBase].map (fun sd => sd.deal) = [baseDeal] :=
  c2_scorer_sorts 0 kmf0 [baseDeal] cfgOK cfgW [] 0 0 50 [sdBase] [sdBase]
    rfl rfl rfl rfl rfl (by rfl) (by rfl)

/-- Claim C4, amended: the currency pattern of normalize_hit requires the
marker "AU" (case-insensitive; optional "D", optional "$", optional single
whitespace) before the digits — it is not optional.  Whenever the
concatenated snippet-and-title text contains no "au"/"AU" pair at all, the
asking_price is null; an AU-marked amount such as "AUD 1.2m" parses to
1,200,000, while the bare "$1.2m" of the original claim yields null. -/
theorem c4_au_marker_required :
    (∀ (hashf : Option String → Int) (today : Int) (hit : RawHit) (src : Source),
        hasAU (hitText hit) = false →
        (normalize_hit hashf today hit src).toOption.map (fun d => d.asking_price_aud)
          = some none)
    ∧ (normalize_hit hf0 0 hitAUD srcBiz).toOption.map (fun d => d.asking_price_aud)
        = some (some 1200000)
    ∧ (normalize_hit hf0 0 hitBare srcBiz).toOption.map (fun d => d.asking_price_aud)
        = some none := by
  refine ⟨fun hashf today hit src h => asking_price_none_of_no_au hashf today hit src h,
    ?_, ?_⟩
  · decide
  · decide

/-- Witness for C4 (amended) at a concrete input: the no-AU case applied to
the bare "450k" snippet. -/
theorem c4_au_marker_required_witness :
    (normalize_hit hf0 0 hit450 srcBiz).toOption.map (fun d => d.asking_price_aud)
      = some none :=
  c4_au_marker_required.1 hf0 0 hit450 srcBiz (by decide)

/-- Claim C4 (counterexample): a snippet that is exactly the bare amount
"$1.2m" (and likewise "450k"), with no preceding currency code, yields a
NULL asking_price, contradicting the claim that such a snippet yields a
non-null one. -/
theorem c4_bare_amount_cex :
    ((normalize_hit hf0 0 hitBare srcBiz).toOption.map (fun d => d.asking_price_aud)
      = some none)
    ∧ ((normalize_hit hf0 0 hit450 srcBiz).toOption.map (fun d => d.asking_price_aud)
      = some none) := by
  exact ⟨by decide, by decide⟩

/-- Witness for C5 (amended) at a concrete input: two hits sharing the link
"u" but with different snippets, normalized at different dates within the
same run (same hash function), get the same id "biz-0". -/
theorem c5_id_fixed_hash_witness : dealNormEmpty.id = dealNormBare.id :=
  c5_id_fixed_hash hf0 0 5 hitEmpty hitBare srcBiz srcBiz dealNormEmpty dealNormBare
    rfl rfl (by rfl) (by rfl)

/-- Claim C5 (counterexample): the id is NOT stable across separate runs:
CPython salts str hashes per process, and under two different per-process
hash functions the same (hit, source) pair gets two different ids. -/
theorem c5_id_across_runs_cex :
    ((normalize_hit hf0 0 hitEmpty srcBiz).toOption.map (fun d => d.id))
    ≠ ((normalize_hit hf1 0 hitEmpty srcBiz).toOption.map (fun d => d.id)) := by
  decide

/-- Claim C9 (counterexample): with an empty deal sequence and a weights
dict missing all six weight keys, score_deals succeeds and returns [] —
no error is raised, because the weight subscripts are only evaluated
inside the per-deal loop (pipeline.py lines 149-156). -/
theorem c9_empty_deals_cex : score_deals 0 kmf0 [] cfgEmptyW = .ok [] := rfl

/-- Witness for C9 (amended) at concrete inputs: a missing weight key with
one deal raises, and a missing top-level hq_lat raises. -/
theorem c9_config_keyerror_witness :
    isErr (score_deals 0 kmf0 [baseDeal] cfgEmptyW) = true
    ∧ isErr (score_deals 0 kmf0 [baseDeal] cfgNoLat) = true :=
  ⟨(c9_config_keyerror 0 kmf0 [baseDeal] cfgEmptyW).2 [] baseDeal [] rfl rfl (Or.inl rfl),
   (c9_config_keyerror 0 kmf0 [baseDeal] cfgNoLat).1 (Or.inr (Or.inr (Or.inl rfl)))⟩

/-- Witness for C10 at a concrete input: a deal with no asking price and
ebitda 100 scores a price_to_ebitda feature of 1. -/
theorem c10_missing_price_best_pte_witness :
    [sdEbitda].map (fun sd => sd.features.price_to_ebitda) = [1] :=
  c10_missing_price_best_pte 0 kmf0 cfgOK dEbitda 100 [sdEbitda]
    rfl rfl (by norm_num) (by rfl)

end ConcreteEvaluations
